import Mathlib

/-!
Verification of the go-env binding engine (`parse.go` and companion files).

The Go source is shallowly embedded as follows.

* A destination struct is a flat, ordered list of fields (the output of
  `walkFields`, which hoists embedded-struct fields in place); a slot's
  `dest` path is the index of its field in that flattened list.
* The in-memory content of a destination field is a `Value`; the whole
  destination is a `State` (one `Value` per flattened field).
* String-to-value conversion is performed in Go by the external library
  `github.com/alexflint/go-scalar` (`scalar.ParseValue`); the embedding
  takes the converter as an explicit function `Nat → String → Except String Value`
  (the `Nat` is the destination index, standing for the field's type, which
  is what selects the conversion in Go).  All control flow of the repository
  itself is embedded faithfully.
* `encoding/csv` (standard library) record reading with the default
  configuration is embedded by `csvReadOne`, including the reader's
  carriage-return handling: `readLine` normalizes every CR LF to LF and
  drops a trailing CR before EOF (modelled by dropping a CR that
  immediately precedes a LF or the end of input), and lines whose
  normalized content is empty are skipped before the one record is read.
-/

namespace GoEnv

/-- In-memory content of a single destination field. -/
inductive Value where
  | str : String → Value
  | int : Int → Value
  | bool : Bool → Value
  | list : List Value → Value
deriving Repr

/-- The destination structs' contents: one `Value` per flattened field. -/
abbrev State := List Value

/-- `spec` from parse.go (lines 49-60): one binding slot.  `dest` is the index
of the field in the flattened field list (the Go `path`); the Go `typ` field
is represented by the index as well, since the converter is passed
explicitly. -/
structure spec where
  dest : Nat
  name : String
  help : String
  defaultVal : String
  multiple : Bool
  required : Bool
  boolean : Bool
  hasDefault : Bool
deriving DecidableEq, Repr

/-- `(*spec).SetDefault` from parse.go (lines 62-65). -/
def spec.SetDefault (s : spec) (d : String) : spec :=
  { s with defaultVal := d, hasDefault := true }

/-- Error message of `ErrorFieldIsRequired` (errors file). -/
def ErrorFieldIsRequired : String := "field is required"

/-- Error message of `ErrorRequiredWithDefault` (errors file). -/
def ErrorRequiredWithDefault : String := "'required' cannot be used when a default value is specified"

/-- Error message of `ErrorUnrecognizedTag` (errors file). -/
def ErrorUnrecognizedTag : String := "unrecognized tag"

/-- Error message of `ErrorFieldsAreNotSupported` (errors file). -/
def ErrorFieldsAreNotSupported : String := "fields are not supported"

/-- Error message of `ErrorDefaultValueForSlice` (errors file). -/
def ErrorDefaultValueForSlice : String := "default values are not supported for slice fields"

/-- Go `strings.Split(s, ",")` on the character list of `s`. -/
def splitComma : List Char → List (List Char)
  | [] => [[]]
  | c :: rest =>
    if c = ',' then [] :: splitComma rest
    else
      match splitComma rest with
      | t :: ts => (c :: t) :: ts
      | [] => [[c]]

/-- Go `strings.TrimLeft(s, " ")`. -/
def trimLeftSpaces (l : List Char) : List Char := l.dropWhile (· = ' ')

/-- Split a token at the first colon, as in parse.go lines 278-282:
`value = key[pos+1:]; key = key[:pos]` when a colon exists, otherwise the
value is empty (indistinguishable, afterwards, from a trailing colon). -/
def splitFirstColon : List Char → List Char × List Char
  | [] => ([], [])
  | c :: rest =>
    if c = ':' then ([], rest)
    else
      match splitFirstColon rest with
      | (k, v) => (c :: k, v)

/-- Token loop of `lookAtTag` (parse.go lines 271-296) over the already
comma-split token list. -/
def lookAtTagAux (sp : spec) : List (List Char) → Except String spec
  | [] => .ok sp
  | tok :: rest =>
    if tok = [] then lookAtTagAux sp rest
    else
      if (splitFirstColon (trimLeftSpaces tok)).1 = "name".data ∧
          (splitFirstColon (trimLeftSpaces tok)).2 ≠ [] then
        lookAtTagAux { sp with name := String.mk (splitFirstColon (trimLeftSpaces tok)).2 } rest
      else if (splitFirstColon (trimLeftSpaces tok)).1 = "required".data then
        if sp.hasDefault then .error ErrorRequiredWithDefault
        else lookAtTagAux { sp with required := true } rest
      else .error (String.mk (splitFirstColon (trimLeftSpaces tok)).1 ++ "-" ++ ErrorUnrecognizedTag)

/-- `lookAtTag` from parse.go (lines 270-299). -/
def lookAtTag (tag : String) (sp : spec) : Except String spec :=
  lookAtTagAux sp (splitComma tag.data)

/-- One flattened struct field, as seen by `walker` (parse.go line 220) and
by the default-materialization loop of `NewParser` (parse.go lines 167-181).
Reflective facts about the field (tags, `canParse` classification, zero-ness
and rendering of the initial value) are recorded as data. -/
structure Field where
  fname : String
  envTag : String
  hasHelp : Bool
  helpTag : String
  hasDefaultTag : Bool
  defaultTag : String
  typeName : String
  parseable : Bool
  boolean : Bool
  multiple : Bool
  anonymousStruct : Bool
  isZeroInit : Bool
  fmtRender : String
  isTextMarshaler : Bool
  marshalText : Except String String
deriving Repr

/-- ASCII lower-casing of one character, as `strings.ToLower` acts on the
characters of a Go field identifier. -/
def charToLower (c : Char) : Char :=
  if 'A' ≤ c ∧ c ≤ 'Z' then Char.ofNat (c.toNat + 32) else c

/-- Go `strings.ToLower` (restricted to the ASCII range, which covers Go
field identifiers as used for environment keys). -/
def toLowerStr (s : String) : String := String.mk (s.data.map charToLower)

/-- The slot as `walker` builds it before `lookAtTag` runs
(parse.go lines 233-246). -/
def walkerInit (d : Nat) (f : Field) : spec :=
  let sp0 : spec :=
    { dest := d, name := toLowerStr f.fname, help := "", defaultVal := ""
      multiple := false, required := false, boolean := false, hasDefault := false }
  let sp1 := if f.hasHelp then { sp0 with help := f.helpTag } else sp0
  if f.hasDefaultTag then sp1.SetDefault f.defaultTag else sp1

/-- `walker` from parse.go (lines 220-267).  Returns `none` for fields that
produce no slot (excluded fields and embedded structs, the latter flagged
for expansion, which the flattened field list already performs). -/
def walker (d : Nat) (f : Field) (tname : String) : Except String (Option spec × Bool) :=
  if f.envTag = "-" then .ok (none, false)
  else if f.anonymousStruct then .ok (none, true)
  else
    match lookAtTag f.envTag (walkerInit d f) with
    | .error e => .error (tname ++ "." ++ f.fname ++ ": " ++ e)
    | .ok sp2 =>
      let sp3 := { sp2 with boolean := f.boolean, multiple := f.multiple }
      if f.parseable = false then
        .error (tname ++ "." ++ f.fname ++ ": " ++ f.typeName ++ " - " ++ ErrorFieldsAreNotSupported)
      else if sp3.multiple && sp3.hasDefault then
        .error (tname ++ "." ++ f.fname ++ ": " ++ ErrorDefaultValueForSlice)
      else .ok (some sp3, false)

/-- `specsFromStruct`'s walk (parse.go lines 206-217) over the flattened
field list; `d` is the index of the next field. -/
def specsFromFieldsAux (tname : String) : List Field → Nat → Except String (List spec)
  | [], _ => .ok []
  | f :: rest, d =>
    match walker d f tname with
    | .error e => .error e
    | .ok (none, _) => specsFromFieldsAux tname rest (d + 1)
    | .ok (some sp, _) => (specsFromFieldsAux tname rest (d + 1)).map (sp :: ·)

/-- Body of the implicit-default loop of `NewParser` (parse.go lines 168-181):
a slot whose destination currently holds a non-zero value gets that value's
textual rendering as its default literal — unconditionally overwriting
`defaultVal`, and never setting `hasDefault`. -/
def addDefaultField (f : Field) (sp : spec) : Except String spec :=
  if f.isZeroInit then .ok sp
  else
    let sp2 := { sp with defaultVal := f.fmtRender }
    if f.isTextMarshaler then
      match f.marshalText with
      | .error e =>
        .error ("args." ++ f.fname ++ ": error marshaling default value to string: " ++ e)
      | .ok str => .ok { sp2 with defaultVal := str }
    else .ok sp2

/-- Look up the field a slot writes to (Go `p.val(spec.dest)`), then apply
the loop body. -/
def addDefault (fields : List Field) (sp : spec) : Except String spec :=
  match fields.get? sp.dest with
  | none => .ok sp
  | some f => addDefaultField f sp

/-- The implicit-default loop of `NewParser` over all slots. -/
def addDefaults (fields : List Field) : List spec → Except String (List spec)
  | [] => .ok []
  | sp :: rest =>
    match addDefault fields sp with
    | .error e => .error e
    | .ok sp2 => (addDefaults fields rest).map (sp2 :: ·)

/-- `NewParser` (parse.go lines 146-191) for one destination struct, already
checked to be a pointer to a struct: build the slots, then materialize
implicit defaults from non-zero initial field values. -/
def NewParser (tname : String) (fields : List Field) : Except String (List spec) :=
  match specsFromFieldsAux tname fields 0 with
  | .error e => .error e
  | .ok specs => addDefaults fields specs

/-- `os.LookupEnv` over an explicit key/value list (the injectable
environment source; keys are unique in a real process environment, and the
first match is taken). -/
def lookupEnv (env : List (String × String)) (name : String) : Option String :=
  match env with
  | [] => none
  | (k, v) :: rest => if k = name then some v else lookupEnv rest name

/-- Mode of the `encoding/csv` record scanner: at the start of a field,
inside a non-quoted field, inside a quoted field, or just after a closing
quote inside a quoted field. -/
inductive CsvMode where
  | fieldStart
  | unquoted
  | quoted
  | afterQuote
deriving DecidableEq, Repr

/-- Message of `csv.ErrBareQuote`. -/
def csvErrBareQuote : String := "bare \" in non-quoted-field"

/-- Message of `csv.ErrQuote`. -/
def csvErrQuote : String := "extraneous or missing \" in quoted-field"

/-- Drop one carriage return at the head of the reversed field accumulator.
This realizes `readLine`'s normalization of CR LF to LF and its dropping of
a trailing CR before EOF: a CR is removed exactly when the very next input
character is a LF, or when the input ends — the two places this helper is
applied. -/
def dropCR : List Char → List Char
  | [] => []
  | c :: rest => if c = '\r' then rest else c :: rest

/-- One-record scan of `encoding/csv` with the default configuration
(comma separator, no lazy quotes, no leading-space trimming).  `acc` is the
current field (reversed), `fields` the completed fields.  A CR immediately
before a record-terminating LF (or before EOF, in a non-quoted field) is
dropped, and inside a quoted field CR LF becomes LF, matching `readLine`'s
per-line normalization; after a closing quote, CR LF or CR-at-EOF ends the
record like a bare LF.  Scanning stops at the first line end outside
quotes: the rest of the input is never looked at (csv.Reader.Read reads one
record). -/
def csvRun : List Char → CsvMode → List Char → List String → Except String (List String)
  | [], .quoted, _, _ => .error csvErrQuote
  | [], .afterQuote, acc, fields => .ok (fields ++ [String.mk acc.reverse])
  | [], _, acc, fields => .ok (fields ++ [String.mk (dropCR acc).reverse])
  | c :: rest, .fieldStart, acc, fields =>
    if c = '"' then csvRun rest .quoted acc fields
    else if c = ',' then csvRun rest .fieldStart [] (fields ++ [String.mk acc.reverse])
    else if c = '\n' then .ok (fields ++ [String.mk (dropCR acc).reverse])
    else csvRun rest .unquoted (c :: acc) fields
  | c :: rest, .unquoted, acc, fields =>
    if c = '"' then .error csvErrBareQuote
    else if c = ',' then csvRun rest .fieldStart [] (fields ++ [String.mk acc.reverse])
    else if c = '\n' then .ok (fields ++ [String.mk (dropCR acc).reverse])
    else csvRun rest .unquoted (c :: acc) fields
  | c :: rest, .quoted, acc, fields =>
    if c = '"' then csvRun rest .afterQuote acc fields
    else if c = '\n' then csvRun rest .quoted ('\n' :: dropCR acc) fields
    else csvRun rest .quoted (c :: acc) fields
  | c :: rest, .afterQuote, acc, fields =>
    if c = '"' then csvRun rest .quoted ('"' :: acc) fields
    else if c = ',' then csvRun rest .fieldStart [] (fields ++ [String.mk acc.reverse])
    else if c = '\n' then .ok (fields ++ [String.mk acc.reverse])
    else if c = '\r' ∧ (rest = [] ∨ rest.head? = some '\n') then
      .ok (fields ++ [String.mk acc.reverse])
    else .error csvErrQuote

/-- `encoding/csv` skips lines whose normalized content is empty before
reading a record (`readRecord`'s skip loop): a bare LF line, or a CR LF
line, which `readLine` has normalized to LF. -/
def csvSkipBlank : List Char → List Char
  | [] => []
  | [c] => if c = '\n' then [] else [c]
  | c :: c2 :: rest =>
    if c = '\n' then csvSkipBlank (c2 :: rest)
    else if c = '\r' ∧ c2 = '\n' then csvSkipBlank rest
    else c :: c2 :: rest

/-- `csv.NewReader(strings.NewReader(value)).Read()` from parse.go line 318:
read exactly one record; input left empty after the blank-line skip — also
when only a final CR remains, which `readLine` drops before EOF — yields
the `io.EOF` error. -/
def csvReadOne (s : String) : Except String (List String) :=
  match csvSkipBlank s.data with
  | [] => .error "EOF"
  | c :: rest =>
    if c = '\r' ∧ rest = [] then .error "EOF"
    else csvRun (c :: rest) .fieldStart [] []

/-- Element loop of `setSlice` (parse.go lines 431-442): convert each part
with the element converter; the first failure aborts.  (In Go the elements
converted before a failure have already been appended to the destination,
but a failure always aborts the whole pass, so only the success case is
observable through `process`.) -/
def setSliceVals (pe : String → Except String Value) : List String → Except String (List Value)
  | [] => .ok []
  | x :: rest =>
    match pe x with
    | .error e => .error e
    | .ok v => (setSliceVals pe rest).map (v :: ·)

/-- `captureEnvVars` (parse.go lines 308-342): for each slot present in the
environment, convert and assign; multi-value slots read one CSV record and
replace the destination slice in full (`setSlice` truncates it first).
`pe` is `scalar.ParseValue` at the slot's own type, `peElem` at the slice
element type. -/
def captureEnvVars (pe peElem : Nat → String → Except String Value)
    (env : List (String × String)) : List spec → State → Except String State
  | [], st => .ok st
  | s :: rest, st =>
    match lookupEnv env s.name with
    | none => captureEnvVars pe peElem env rest st
    | some value =>
      if s.multiple then
        match csvReadOne value with
        | .error e =>
          .error ("error reading a CSV string from environment variable " ++ s.name
            ++ " with multiple values: " ++ e)
        | .ok values =>
          match setSliceVals (peElem s.dest) values with
          | .error e =>
            .error ("error processing environment variable " ++ s.name
              ++ " with multiple values: " ++ e)
          | .ok l => captureEnvVars pe peElem env rest (st.set s.dest (Value.list l))
      else
        match pe s.dest value with
        | .error e => .error ("error processing environment variable " ++ s.name ++ ": " ++ e)
        | .ok v => captureEnvVars pe peElem env rest (st.set s.dest v)

/-- Second loop of `process` (parse.go lines 361-378): slots not present in
the environment abort when required, and are otherwise assigned from their
default literal when that literal is non-empty.  (`wasPresent[spec]` holds
exactly when the slot's key was found, since any conversion failure has
already aborted the pass.) -/
def fillDefaults (pe : Nat → String → Except String Value)
    (env : List (String × String)) : List spec → State → Except String State
  | [], st => .ok st
  | s :: rest, st =>
    match lookupEnv env s.name with
    | some _ => fillDefaults pe env rest st
    | none =>
      if s.required then .error (s.name ++ ": " ++ ErrorFieldIsRequired)
      else if s.defaultVal ≠ "" then
        match pe s.dest s.defaultVal with
        | .error e => .error ("error processing default value for " ++ s.name ++ ": " ++ e)
        | .ok v => fillDefaults pe env rest (st.set s.dest v)
      else fillDefaults pe env rest st

/-- `process` (parse.go lines 346-381), the whole binding pass: capture the
environment-present slots, then fill defaults and check required slots. -/
def process (pe peElem : Nat → String → Except String Value)
    (env : List (String × String)) (specs : List spec) (st : State) : Except String State :=
  match captureEnvVars pe peElem env specs st with
  | .error e => .error e
  | .ok st1 => fillDefaults pe env specs st1

/-- Apply a list of `(destination index, value)` writes in order. -/
def applyUpdates (st : State) (us : List (Nat × Value)) : State :=
  us.foldl (fun s u => s.set u.1 u.2) st

/-- The last write to destination `d` in a write list, if any. -/
def lastUpdate : List (Nat × Value) → Nat → Option Value
  | [], _ => none
  | (e, v) :: us, d =>
    match lastUpdate us d with
    | some w => some w
    | none => if e = d then some v else none

/-- The writes `captureEnvVars` performs, which do not depend on the
destination's current state (conversion inputs come from the environment
only). -/
def captureUpdates (pe peElem : Nat → String → Except String Value)
    (env : List (String × String)) : List spec → Except String (List (Nat × Value))
  | [] => .ok []
  | s :: rest =>
    match lookupEnv env s.name with
    | none => captureUpdates pe peElem env rest
    | some value =>
      if s.multiple then
        match csvReadOne value with
        | .error e =>
          .error ("error reading a CSV string from environment variable " ++ s.name
            ++ " with multiple values: " ++ e)
        | .ok values =>
          match setSliceVals (peElem s.dest) values with
          | .error e =>
            .error ("error processing environment variable " ++ s.name
              ++ " with multiple values: " ++ e)
          | .ok l => (captureUpdates pe peElem env rest).map ((s.dest, Value.list l) :: ·)
      else
        match pe s.dest value with
        | .error e => .error ("error processing environment variable " ++ s.name ++ ": " ++ e)
        | .ok v => (captureUpdates pe peElem env rest).map ((s.dest, v) :: ·)

/-- The writes `fillDefaults` performs, likewise state-independent. -/
def fillUpdates (pe : Nat → String → Except String Value)
    (env : List (String × String)) : List spec → Except String (List (Nat × Value))
  | [] => .ok []
  | s :: rest =>
    match lookupEnv env s.name with
    | some _ => fillUpdates pe env rest
    | none =>
      if s.required then .error (s.name ++ ": " ++ ErrorFieldIsRequired)
      else if s.defaultVal ≠ "" then
        match pe s.dest s.defaultVal with
        | .error e => .error ("error processing default value for " ++ s.name ++ ": " ++ e)
        | .ok v => (fillUpdates pe env rest).map ((s.dest, v) :: ·)
      else fillUpdates pe env rest

/-- The writes of a whole binding pass. -/
def processUpdates (pe peElem : Nat → String → Except String Value)
    (env : List (String × String)) (specs : List spec) : Except String (List (Nat × Value)) :=
  match captureUpdates pe peElem env specs with
  | .error e => .error e
  | .ok u1 =>
    match fillUpdates pe env specs with
    | .error e => .error e
    | .ok u2 => .ok (u1 ++ u2)

/-- A slot the second loop of `process` passes over without aborting:
its key is present, or it is neither required nor carrying a default
literal that fails to convert. -/
def passes (pe : Nat → String → Except String Value)
    (env : List (String × String)) (s : spec) : Prop :=
  (lookupEnv env s.name).isSome = true ∨
    (s.required = false ∧ (s.defaultVal = "" ∨ ∃ v, pe s.dest s.defaultVal = .ok v))

/-- Modelled from the spec: the shape of a Go type as the missing type
classifier (`canParse`, whose source file is not under src/, only its tests)
sees it.  `custom` marks a type exposing the custom textual-decode
capability (`encoding.TextUnmarshaler`), recording its underlying shape;
`scalarT` stands for any non-boolean parseable primitive (numeric families,
string, duration-like, network-address-like). -/
inductive GoType where
  | boolT
  | scalarT
  | custom (shape : GoType)
  | ptr (t : GoType)
  | slice (t : GoType)
  | unsupported
deriving DecidableEq, Repr

/-- Does the type itself expose the custom textual-decode capability? -/
def hasCustom : GoType → Bool
  | .custom _ => true
  | _ => false

/-- Modelled from the spec: is a slice element type (or pointer to it)
classifiable as scalar, boolean or custom-decodable? -/
def classifyElem : GoType → Bool
  | .custom _ => true
  | .boolT => true
  | .scalarT => true
  | .ptr (.custom _) => true
  | .ptr .boolT => true
  | .ptr .scalarT => true
  | _ => false

/-- Modelled from the spec: is a slice element type boolean? -/
def isBoolElem : GoType → Bool
  | .boolT => true
  | .ptr .boolT => true
  | _ => false

/-- Modelled from the spec: the type classifier `canParse`
(file absent from src/; behavior fixed by §4.2 of the spec and the
`TestCanParse`/`TestCanParseTextUnmarshaler` tests).  Returns
`(parseable, boolean, multiple)`: a type exposing the custom
textual-decode capability is a single opaque scalar regardless of its
underlying shape; otherwise booleans (or optional booleans) are boolean,
slices (or optional slices) of classifiable elements are multi-value, and
other parseable primitives (or optionals) are scalars. -/
def canParse (t : GoType) : Bool × Bool × Bool :=
  match t with
  | .custom _ => (true, false, false)
  | .boolT => (true, true, false)
  | .scalarT => (true, false, false)
  | .slice e => (classifyElem e, isBoolElem e, true)
  | .ptr u =>
    match u with
    | .custom _ => (true, false, false)
    | .boolT => (true, true, false)
    | .scalarT => (true, false, false)
    | .slice e => (classifyElem e, isBoolElem e, true)
    | _ => (false, false, false)
  | .unsupported => (false, false, false)

/-- Modelled from the spec: the value converter (`scalar.ParseValue`, an
external dependency).  When the target type (or its referent, for
pointer-wrapped targets) exposes the custom textual-decode capability, that
capability is invoked directly on the raw string; every other type uses the
structural conversion. -/
def convert (customDecode structural : GoType → String → Except String Value)
    (t : GoType) (raw : String) : Except String Value :=
  match t with
  | .custom s => customDecode (.custom s) raw
  | .ptr (.custom s) => customDecode (.custom s) raw
  | t => structural t raw

theorem applyUpdates_nil (st : State) : applyUpdates st [] = st := rfl

theorem applyUpdates_cons (st : State) (d : Nat) (v : Value) (us : List (Nat × Value)) :
    applyUpdates st ((d, v) :: us) = applyUpdates (st.set d v) us := rfl

theorem applyUpdates_append (st : State) (us1 us2 : List (Nat × Value)) :
    applyUpdates st (us1 ++ us2) = applyUpdates (applyUpdates st us1) us2 :=
  List.foldl_append _ _ _ _

theorem applyUpdates_length (st : State) (us : List (Nat × Value)) :
    (applyUpdates st us).length = st.length := by
  induction us generalizing st with
  | nil => rfl
  | cons u us ih =>
    obtain ⟨d, v⟩ := u
    rw [applyUpdates_cons, ih, List.length_set]

theorem applyUpdates_get? (st : State) (us : List (Nat × Value)) (d : Nat) :
    (applyUpdates st us).get? d =
      match lastUpdate us d with
      | some v => if d < st.length then some v else none
      | none => st.get? d := by
  induction us generalizing st with
  | nil => rfl
  | cons u us ih =>
    obtain ⟨e, v⟩ := u
    rw [applyUpdates_cons, ih, lastUpdate]
    cases h : lastUpdate us d with
    | some w => simp [List.length_set]
    | none =>
      simp only
      by_cases he : e = d
      · subst he
        by_cases hd : e < st.length
        · simp [hd, List.get?_set_eq_of_lt _ hd]
        · rw [List.set_eq_of_length_le (Nat.le_of_not_lt hd)]
          have hn : st.get? e = none := List.get?_eq_none.2 (Nat.le_of_not_lt hd)
          rw [hn]
          simp [hd]
      · simp [he, List.get?_set_ne _ _ he]

theorem applyUpdates_idem (st : State) (us : List (Nat × Value)) :
    applyUpdates (applyUpdates st us) us = applyUpdates st us := by
  apply List.ext
  intro n
  rw [applyUpdates_get?, applyUpdates_get?]
  cases h : lastUpdate us n with
  | none => rfl
  | some v => simp [applyUpdates_length]

theorem lastUpdate_none_of_not_mem (us : List (Nat × Value)) (d : Nat)
    (h : ∀ u ∈ us, u.1 ≠ d) : lastUpdate us d = none := by
  induction us with
  | nil => rfl
  | cons u us ih =>
    obtain ⟨e, v⟩ := u
    rw [lastUpdate, ih (fun u hu => h u (List.mem_cons_of_mem _ hu))]
    simp [h (e, v) (List.mem_cons_self _ _)]

theorem applyUpdates_get?_untouched (st : State) (us : List (Nat × Value)) (d : Nat)
    (h : ∀ u ∈ us, u.1 ≠ d) : (applyUpdates st us).get? d = st.get? d := by
  rw [applyUpdates_get?, lastUpdate_none_of_not_mem us d h]

theorem captureEnvVars_eq (pe peElem : Nat → String → Except String Value)
    (env : List (String × String)) (specs : List spec) (st : State) :
    captureEnvVars pe peElem env specs st =
      (captureUpdates pe peElem env specs).map (applyUpdates st) := by
  induction specs generalizing st with
  | nil => rfl
  | cons s rest ih =>
    rw [captureEnvVars, captureUpdates]
    cases lookupEnv env s.name with
    | none => exact ih st
    | some value =>
      simp only
      by_cases hm : s.multiple = true
      case pos =>
        simp only [if_pos hm]
        cases csvReadOne value with
        | error e => rfl
        | ok values =>
          simp only
          cases setSliceVals (peElem s.dest) values with
          | error e => rfl
          | ok l =>
            simp only [ih]
            cases captureUpdates pe peElem env rest with
            | error e => rfl
            | ok us => rfl
      case neg =>
        simp only [if_neg hm]
        cases pe s.dest value with
        | error e => rfl
        | ok v =>
          simp only [ih]
          cases captureUpdates pe peElem env rest with
          | error e => rfl
          | ok us => rfl

theorem fillDefaults_eq (pe : Nat → String → Except String Value)
    (env : List (String × String)) (specs : List spec) (st : State) :
    fillDefaults pe env specs st = (fillUpdates pe env specs).map (applyUpdates st) := by
  induction specs generalizing st with
  | nil => rfl
  | cons s rest ih =>
    rw [fillDefaults, fillUpdates]
    cases lookupEnv env s.name with
    | some value => exact ih st
    | none =>
      simp only
      by_cases hr : s.required
      · simp [hr, Except.map]
      · simp only [if_neg hr]
        by_cases hd : s.defaultVal ≠ ""
        · simp only [if_pos hd]
          cases pe s.dest s.defaultVal with
          | error e => rfl
          | ok v =>
            simp only [ih]
            cases fillUpdates pe env rest with
            | error e => rfl
            | ok us => rfl
        · simp only [if_neg hd]
          exact ih st

theorem process_eq (pe peElem : Nat → String → Except String Value)
    (env : List (String × String)) (specs : List spec) (st : State) :
    process pe peElem env specs st =
      (processUpdates pe peElem env specs).map (applyUpdates st) := by
  rw [process, processUpdates, captureEnvVars_eq]
  cases captureUpdates pe peElem env specs with
  | error e => rfl
  | ok u1 =>
    simp only [Except.map]
    rw [fillDefaults_eq]
    cases fillUpdates pe env specs with
    | error e => rfl
    | ok u2 => simp [Except.map, applyUpdates_append]

theorem captureUpdates_dests (pe peElem : Nat → String → Except String Value)
    (env : List (String × String)) (specs : List spec) (us : List (Nat × Value))
    (h : captureUpdates pe peElem env specs = .ok us) :
    ∀ u ∈ us, ∃ s ∈ specs, u.1 = s.dest ∧ (lookupEnv env s.name).isSome = true := by
  induction specs generalizing us with
  | nil =>
    rw [captureUpdates] at h
    cases h
    intro u hu
    cases hu
  | cons s rest ih =>
    rw [captureUpdates] at h
    cases hl : lookupEnv env s.name with
    | none =>
      rw [hl] at h
      intro u hu
      obtain ⟨s', hs', hu1, hu2⟩ := ih us h u hu
      exact ⟨s', List.mem_cons_of_mem _ hs', hu1, hu2⟩
    | some value =>
      rw [hl] at h
      simp only at h
      by_cases hm : s.multiple = true
      · rw [if_pos hm] at h
        cases hcsv : csvReadOne value with
        | error e => rw [hcsv] at h; cases h
        | ok values =>
          rw [hcsv] at h
          simp only at h
          cases hsv : setSliceVals (peElem s.dest) values with
          | error e => rw [hsv] at h; cases h
          | ok l =>
            rw [hsv] at h
            simp only at h
            cases hcu : captureUpdates pe peElem env rest with
            | error e => rw [hcu] at h; cases h
            | ok us' =>
              rw [hcu] at h
              cases h
              intro u hu
              rcases List.mem_cons.1 hu with hu | hu
              · subst hu
                exact ⟨s, List.mem_cons_self _ _, rfl, by rw [hl]; rfl⟩
              · obtain ⟨s', hs', hu1, hu2⟩ := ih us' hcu u hu
                exact ⟨s', List.mem_cons_of_mem _ hs', hu1, hu2⟩
      · rw [if_neg hm] at h
        cases hpe : pe s.dest value with
        | error e => rw [hpe] at h; cases h
        | ok v =>
          rw [hpe] at h
          simp only at h
          cases hcu : captureUpdates pe peElem env rest with
          | error e => rw [hcu] at h; cases h
          | ok us' =>
            rw [hcu] at h
            cases h
            intro u hu
            rcases List.mem_cons.1 hu with hu | hu
            · subst hu
              exact ⟨s, List.mem_cons_self _ _, rfl, by rw [hl]; rfl⟩
            · obtain ⟨s', hs', hu1, hu2⟩ := ih us' hcu u hu
              exact ⟨s', List.mem_cons_of_mem _ hs', hu1, hu2⟩

theorem fillUpdates_dests (pe : Nat → String → Except String Value)
    (env : List (String × String)) (specs : List spec) (us : List (Nat × Value))
    (h : fillUpdates pe env specs = .ok us) :
    ∀ u ∈ us, ∃ s ∈ specs, u.1 = s.dest ∧ s.defaultVal ≠ "" ∧ lookupEnv env s.name = none := by
  induction specs generalizing us with
  | nil =>
    rw [fillUpdates] at h
    cases h
    intro u hu
    cases hu
  | cons s rest ih =>
    rw [fillUpdates] at h
    cases hl : lookupEnv env s.name with
    | some value =>
      rw [hl] at h
      intro u hu
      obtain ⟨s', hs', h1, h2, h3⟩ := ih us h u hu
      exact ⟨s', List.mem_cons_of_mem _ hs', h1, h2, h3⟩
    | none =>
      rw [hl] at h
      simp only at h
      by_cases hr : s.required = true
      · rw [if_pos hr] at h; cases h
      · rw [if_neg hr] at h
        by_cases hd : s.defaultVal ≠ ""
        · rw [if_pos hd] at h
          cases hpe : pe s.dest s.defaultVal with
          | error e => rw [hpe] at h; cases h
          | ok v =>
            rw [hpe] at h
            simp only at h
            cases hfu : fillUpdates pe env rest with
            | error e => rw [hfu] at h; cases h
            | ok us' =>
              rw [hfu] at h
              cases h
              intro u hu
              rcases List.mem_cons.1 hu with hu | hu
              · subst hu
                exact ⟨s, List.mem_cons_self _ _, rfl, hd, hl⟩
              · obtain ⟨s', hs', h1, h2, h3⟩ := ih us' hfu u hu
                exact ⟨s', List.mem_cons_of_mem _ hs', h1, h2, h3⟩
        · rw [if_neg hd] at h
          intro u hu
          obtain ⟨s', hs', h1, h2, h3⟩ := ih us h u hu
          exact ⟨s', List.mem_cons_of_mem _ hs', h1, h2, h3⟩

theorem fillDefaults_append (pe : Nat → String → Except String Value)
    (env : List (String × String)) (l1 l2 : List spec) (st : State) :
    fillDefaults pe env (l1 ++ l2) st =
      match fillDefaults pe env l1 st with
      | .error e => .error e
      | .ok st1 => fillDefaults pe env l2 st1 := by
  induction l1 generalizing st with
  | nil => rfl
  | cons s rest ih =>
    rw [List.cons_append, fillDefaults, fillDefaults]
    cases lookupEnv env s.name with
    | some value => exact ih st
    | none =>
      simp only
      by_cases hr : s.required = true
      · simp [hr]
      · rw [if_neg hr, if_neg hr]
        by_cases hd : s.defaultVal ≠ ""
        · rw [if_pos hd, if_pos hd]
          cases pe s.dest s.defaultVal with
          | error e => rfl
          | ok v => exact ih (st.set s.dest v)
        · rw [if_neg hd, if_neg hd]
          exact ih st

theorem fillDefaults_passes (pe : Nat → String → Except String Value)
    (env : List (String × String)) (l : List spec) (st : State)
    (h : ∀ s ∈ l, passes pe env s) :
    ∃ st1, fillDefaults pe env l st = .ok st1 := by
  induction l generalizing st with
  | nil => exact ⟨st, rfl⟩
  | cons s rest ih =>
    rw [fillDefaults]
    have hs := h s (List.mem_cons_self _ _)
    have hrest := fun s' hs' => h s' (List.mem_cons_of_mem _ hs')
    cases hl : lookupEnv env s.name with
    | some value => exact ih st hrest
    | none =>
      simp only
      rcases hs with hs | ⟨hreq, hdef⟩
      · rw [hl] at hs; cases hs
      · rw [if_neg (by rw [hreq]; exact Bool.false_ne_true)]
        rcases hdef with hdef | ⟨v, hv⟩
        · rw [if_neg (by simpa using hdef)]
          exact ih st hrest
        · by_cases hd : s.defaultVal ≠ ""
          · rw [if_pos hd, hv]
            exact ih (st.set s.dest v) hrest
          · rw [if_neg hd]
            exact ih st hrest

theorem fillDefaults_ok_length (pe : Nat → String → Except String Value)
    (env : List (String × String)) (l : List spec) (st st' : State)
    (h : fillDefaults pe env l st = .ok st') : st'.length = st.length := by
  rw [fillDefaults_eq] at h
  cases hu : fillUpdates pe env l with
  | error e => rw [hu] at h; cases h
  | ok us =>
    rw [hu] at h
    cases h
    exact applyUpdates_length st us

theorem fillDefaults_preserve (pe : Nat → String → Except String Value)
    (env : List (String × String)) (l : List spec) (st st' : State) (d : Nat)
    (hd : ∀ s ∈ l, s.dest ≠ d)
    (h : fillDefaults pe env l st = .ok st') : st'.get? d = st.get? d := by
  rw [fillDefaults_eq] at h
  cases hu : fillUpdates pe env l with
  | error e => rw [hu] at h; cases h
  | ok us =>
    rw [hu] at h
    cases h
    apply applyUpdates_get?_untouched
    intro u hu2
    obtain ⟨s, hs, h1, _, _⟩ := fillUpdates_dests pe env l us hu u hu2
    rw [h1]
    exact hd s hs

theorem captureEnvVars_preserve (pe peElem : Nat → String → Except String Value)
    (env : List (String × String)) (l : List spec) (st st' : State) (d : Nat)
    (hd : ∀ s ∈ l, s.dest ≠ d)
    (h : captureEnvVars pe peElem env l st = .ok st') : st'.get? d = st.get? d := by
  rw [captureEnvVars_eq] at h
  cases hu : captureUpdates pe peElem env l with
  | error e => rw [hu] at h; cases h
  | ok us =>
    rw [hu] at h
    cases h
    apply applyUpdates_get?_untouched
    intro u hu2
    obtain ⟨s, hs, h1, _⟩ := captureUpdates_dests pe peElem env l us hu u hu2
    rw [h1]
    exact hd s hs

theorem captureEnvVars_ok_length (pe peElem : Nat → String → Except String Value)
    (env : List (String × String)) (l : List spec) (st st' : State)
    (h : captureEnvVars pe peElem env l st = .ok st') : st'.length = st.length := by
  rw [captureEnvVars_eq] at h
  cases hu : captureUpdates pe peElem env l with
  | error e => rw [hu] at h; cases h
  | ok us =>
    rw [hu] at h
    cases h
    exact applyUpdates_length st us

theorem process_capture_ok (pe peElem : Nat → String → Except String Value)
    (env : List (String × String)) (specs : List spec) (st st1 : State)
    (h : captureEnvVars pe peElem env specs st = .ok st1) :
    process pe peElem env specs st = fillDefaults pe env specs st1 := by
  rw [process, h]

theorem fillDefaults_cons_present (pe : Nat → String → Except String Value)
    (env : List (String × String)) (s : spec) (rest : List spec) (st : State) (v : String)
    (h : lookupEnv env s.name = some v) :
    fillDefaults pe env (s :: rest) st = fillDefaults pe env rest st := by
  rw [fillDefaults, h]

theorem fillDefaults_cons_required (pe : Nat → String → Except String Value)
    (env : List (String × String)) (s : spec) (rest : List spec) (st : State)
    (h : lookupEnv env s.name = none) (hreq : s.required = true) :
    fillDefaults pe env (s :: rest) st = .error (s.name ++ ": " ++ ErrorFieldIsRequired) := by
  rw [fillDefaults, h]
  simp [hreq]

theorem fillDefaults_cons_default_err (pe : Nat → String → Except String Value)
    (env : List (String × String)) (s : spec) (rest : List spec) (st : State) (e : String)
    (h : lookupEnv env s.name = none) (hreq : s.required = false)
    (hdef : s.defaultVal ≠ "") (hpe : pe s.dest s.defaultVal = .error e) :
    fillDefaults pe env (s :: rest) st =
      .error ("error processing default value for " ++ s.name ++ ": " ++ e) := by
  rw [fillDefaults, h]
  simp [hreq, hdef, hpe]

theorem fillDefaults_cons_default_ok (pe : Nat → String → Except String Value)
    (env : List (String × String)) (s : spec) (rest : List spec) (st : State) (v : Value)
    (h : lookupEnv env s.name = none) (hreq : s.required = false)
    (hdef : s.defaultVal ≠ "") (hpe : pe s.dest s.defaultVal = .ok v) :
    fillDefaults pe env (s :: rest) st = fillDefaults pe env rest (st.set s.dest v) := by
  rw [fillDefaults, h]
  simp [hreq, hdef, hpe]

theorem captureEnvVars_cons_multiple (pe peElem : Nat → String → Except String Value)
    (env : List (String × String)) (s : spec) (rest : List spec) (st : State)
    (raw : String) (values : List String) (l : List Value)
    (hfound : lookupEnv env s.name = some raw) (hm : s.multiple = true)
    (hcsv : csvReadOne raw = .ok values)
    (hconv : setSliceVals (peElem s.dest) values = .ok l) :
    captureEnvVars pe peElem env (s :: rest) st =
      captureEnvVars pe peElem env rest (st.set s.dest (Value.list l)) := by
  rw [captureEnvVars, hfound]
  simp [hm, hcsv, hconv]

/-- Decimal digit value, for the concrete witness converter. -/
def digitVal (c : Char) : Option Nat :=
  if c.isDigit then some (c.toNat - 48) else none

/-- Accumulating decimal parser, for the concrete witness converter. -/
def parseDigitsAux : List Char → Nat → Option Nat
  | [], acc => some acc
  | c :: rest, acc =>
    match digitVal c with
    | none => none
    | some d => parseDigitsAux rest (acc * 10 + d)

/-- Concrete converter standing in for `scalar.ParseValue` at an `int`-typed
destination (non-negative decimal literals); used by the witnesses. -/
def intPe : Nat → String → Except String Value := fun _ raw =>
  match raw.data with
  | [] => .error "strconv parse error"
  | l =>
    match parseDigitsAux l 0 with
    | some n => .ok (.int (Int.ofNat n))
    | none => .error "strconv parse error"

/-- Base slot fixture for the witnesses. -/
def spec0 : spec :=
  { dest := 0, name := "foo", help := "", defaultVal := "", multiple := false,
    required := false, boolean := false, hasDefault := false }

/-- Claim C1: after the pass over environment-present slots, a slot whose key
is absent and which is required aborts the pass with a "field is required"
error carrying the slot's name; a slot whose key is absent, not required,
and carrying a non-empty default literal has the literal converted and
assigned to its destination, and a conversion failure of the literal aborts
the pass with an error carrying the slot's name.  `pre` are the slots the
second loop passes over before reaching the slot `s`. -/
theorem claim_C1 (pe peElem : Nat → String → Except String Value)
    (env : List (String × String)) (pre post : List spec) (s : spec) (st0 st : State)
    (hcap : captureEnvVars pe peElem env (pre ++ s :: post) st0 = .ok st)
    (hpre : ∀ s' ∈ pre, passes pe env s')
    (habs : lookupEnv env s.name = none) :
    (s.required = true →
       process pe peElem env (pre ++ s :: post) st0 =
         .error (s.name ++ ": " ++ ErrorFieldIsRequired)) ∧
    (∀ e, s.required = false → s.defaultVal ≠ "" → pe s.dest s.defaultVal = .error e →
       process pe peElem env (pre ++ s :: post) st0 =
         .error ("error processing default value for " ++ s.name ++ ": " ++ e)) ∧
    (∀ v st', s.required = false → s.defaultVal ≠ "" → pe s.dest s.defaultVal = .ok v →
       (∀ s' ∈ post, s'.dest ≠ s.dest) → s.dest < st0.length →
       process pe peElem env (pre ++ s :: post) st0 = .ok st' →
       st'.get? s.dest = some v) := by
  obtain ⟨st1, hfill1⟩ := fillDefaults_passes pe env pre st hpre
  have hproc : process pe peElem env (pre ++ s :: post) st0 =
      fillDefaults pe env (s :: post) st1 := by
    rw [process_capture_ok pe peElem env (pre ++ s :: post) st0 st hcap,
      fillDefaults_append, hfill1]
  refine ⟨?_, ?_, ?_⟩
  · intro hreq
    rw [hproc, fillDefaults_cons_required pe env s post st1 habs hreq]
  · intro e hreq hdef hpe
    rw [hproc, fillDefaults_cons_default_err pe env s post st1 e habs hreq hdef hpe]
  · intro v st' hreq hdef hpe hpost hlen hok
    rw [hproc, fillDefaults_cons_default_ok pe env s post st1 v habs hreq hdef hpe] at hok
    rw [fillDefaults_preserve pe env post (st1.set s.dest v) st' s.dest hpost hok]
    have hlen1 : s.dest < st1.length := by
      rw [fillDefaults_ok_length pe env pre st st1 hfill1,
        captureEnvVars_ok_length pe peElem env (pre ++ s :: post) st0 st hcap]
      exact hlen
    exact List.get?_set_eq_of_lt v hlen1

/-- Witness for C1: a required slot with absent key aborts with the
"field is required" error naming the slot. -/
theorem claim_C1_witness :
    process intPe intPe [] [{ spec0 with required := true }] [Value.int 0] =
      .error ("foo" ++ ": " ++ ErrorFieldIsRequired) :=
  (claim_C1 intPe intPe [] [] [] { spec0 with required := true } [Value.int 0] [Value.int 0]
    rfl (fun s' hs' => absurd hs' (List.not_mem_nil s')) rfl).1 rfl

/-- Claim C5: a multi-value slot whose key is present and whose value
converts has its destination slice replaced in full by the converted
elements, in order, regardless of the slice's previous content. -/
theorem claim_C5 (pe peElem : Nat → String → Except String Value)
    (env : List (String × String)) (s : spec) (rest : List spec) (st st' : State)
    (raw : String) (values : List String) (l : List Value)
    (hm : s.multiple = true)
    (hfound : lookupEnv env s.name = some raw)
    (hcsv : csvReadOne raw = .ok values)
    (hconv : setSliceVals (peElem s.dest) values = .ok l)
    (hdisj : ∀ s' ∈ rest, s'.dest ≠ s.dest)
    (hlen : s.dest < st.length)
    (hok : process pe peElem env (s :: rest) st = .ok st') :
    st'.get? s.dest = some (Value.list l) := by
  have hstep := captureEnvVars_cons_multiple pe peElem env s rest st raw values l
    hfound hm hcsv hconv
  cases hcap : captureEnvVars pe peElem env rest (st.set s.dest (Value.list l)) with
  | error e =>
    have hperr : process pe peElem env (s :: rest) st = .error e := by
      rw [process, hstep, hcap]
    rw [hperr] at hok
    cases hok
  | ok st1 =>
    have hp : process pe peElem env (s :: rest) st = fillDefaults pe env (s :: rest) st1 := by
      rw [process, hstep, hcap]
    rw [hp, fillDefaults_cons_present pe env s rest st1 raw hfound] at hok
    rw [fillDefaults_preserve pe env rest st1 st' s.dest hdisj hok]
    rw [captureEnvVars_preserve pe peElem env rest (st.set s.dest (Value.list l)) st1
      s.dest hdisj hcap]
    exact List.get?_set_eq_of_lt _ hlen

/-- Witness for C5: binding `foo=1,2,3` into a slice pre-populated with
`[42]` yields exactly `[1,2,3]`. -/
theorem claim_C5_witness :
    process intPe intPe [("foo", "1,2,3")] [{ spec0 with multiple := true }]
        [Value.list [Value.int 42]] =
      .ok [Value.list [Value.int 1, Value.int 2, Value.int 3]] ∧
    (([Value.list [Value.int 1, Value.int 2, Value.int 3]] : State).get? 0 =
      some (Value.list [Value.int 1, Value.int 2, Value.int 3])) :=
  ⟨rfl,
    claim_C5 intPe intPe [("foo", "1,2,3")] { spec0 with multiple := true } []
      [Value.list [Value.int 42]] [Value.list [Value.int 1, Value.int 2, Value.int 3]]
      "1,2,3" ["1", "2", "3"] [Value.int 1, Value.int 2, Value.int 3]
      rfl rfl rfl rfl (fun s' hs' => absurd hs' (List.not_mem_nil s')) (by decide) rfl⟩

/-- Claim C6: over scalar and boolean slots, a binding pass is idempotent —
running `process` a second time on its own successful result, with the same
environment, returns that result unchanged. -/
theorem claim_C6 (pe peElem : Nat → String → Except String Value)
    (env : List (String × String)) (specs : List spec) (st st' : State)
    (hscalar : ∀ s ∈ specs, s.multiple = false)
    (h : process pe peElem env specs st = .ok st') :
    process pe peElem env specs st' = .ok st' := by
  rw [process_eq] at h ⊢
  cases hu : processUpdates pe peElem env specs with
  | error e => rw [hu] at h; cases h
  | ok us =>
    rw [hu] at h
    cases h
    simp [Except.map, applyUpdates_idem]

/-- Witness for C6: rebinding the already-bound state is a fixed point. -/
theorem claim_C6_witness :
    process intPe intPe [("foo", "7")] [spec0] [Value.int 7] = .ok [Value.int 7] :=
  claim_C6 intPe intPe [("foo", "7")] [spec0] [Value.int 0] [Value.int 7]
    (by intro s' hs'; rw [List.mem_singleton] at hs'; subst hs'; rfl) rfl

/-- Counterexample to claim C7 as stated: a slot with default literal `"0"`
bound to `7` by a first pass is re-assigned from the default — and reset to
zero — by a second pass whose environment no longer contains its key. -/
theorem claim_C7_counterexample :
    process intPe intPe [("foo", "7")] [{ spec0 with defaultVal := "0", hasDefault := true }]
        [Value.int 0] = .ok [Value.int 7] ∧
    process intPe intPe [] [{ spec0 with defaultVal := "0", hasDefault := true }]
        [Value.int 7] = .ok [Value.int 0] :=
  ⟨rfl, rfl⟩

/-- Claim C7, amended: a slot with an empty default literal (and no other
slot writing the same destination) keeps its previously-bound value across a
binding pass whose environment no longer contains its key; a slot with a
non-empty default literal is instead re-assigned from that literal. -/
theorem claim_C7_amended (pe peElem : Nat → String → Except String Value)
    (env1 env2 : List (String × String)) (specs : List spec) (st st1 st2 : State) (s : spec)
    (hfirst : process pe peElem env1 specs st = .ok st1)
    (hs : s ∈ specs)
    (habs : lookupEnv env2 s.name = none)
    (hsame : ∀ s' ∈ specs, s'.dest = s.dest → lookupEnv env2 s'.name = none ∧ s'.defaultVal = "")
    (hsecond : process pe peElem env2 specs st1 = .ok st2) :
    st2.get? s.dest = st1.get? s.dest := by
  rw [process_eq] at hsecond
  cases hu : processUpdates pe peElem env2 specs with
  | error e => rw [hu] at hsecond; cases hsecond
  | ok us =>
    rw [hu] at hsecond
    cases hsecond
    apply applyUpdates_get?_untouched
    intro u hu2
    rw [processUpdates] at hu
    cases hcu : captureUpdates pe peElem env2 specs with
    | error e => rw [hcu] at hu; cases hu
    | ok u1 =>
      rw [hcu] at hu
      cases hfu : fillUpdates pe env2 specs with
      | error e => rw [hfu] at hu; cases hu
      | ok u2 =>
        rw [hfu] at hu
        cases hu
        rcases List.mem_append.1 hu2 with h2 | h2
        · obtain ⟨s', hs', hd, hsome⟩ := captureUpdates_dests pe peElem env2 specs u1 hcu u h2
          intro heq
          have hds : s'.dest = s.dest := by rw [← hd, heq]
          have hnone := (hsame s' hs' hds).1
          rw [hnone] at hsome
          simp at hsome
        · obtain ⟨s', hs', hd, hdv, _⟩ := fillUpdates_dests pe env2 specs u2 hfu u h2
          intro heq
          have hds : s'.dest = s.dest := by rw [← hd, heq]
          exact hdv ((hsame s' hs' hds).2)

/-- Witness for the amended C7: a slot with no default literal keeps the
value `7` bound by the first pass when the second environment is empty. -/
theorem claim_C7_amended_witness :
    ([Value.int 7] : State).get? spec0.dest = ([Value.int 7] : State).get? spec0.dest :=
  claim_C7_amended intPe intPe [("foo", "7")] [] [spec0]
    [Value.int 0] [Value.int 7] [Value.int 7] spec0
    rfl (List.mem_singleton.2 rfl) rfl
    (by intro s' hs' _; rw [List.mem_singleton] at hs'; subst hs'; exact ⟨rfl, rfl⟩)
    rfl

theorem walkerInit_required (d : Nat) (f : Field) : (walkerInit d f).required = false := by
  simp only [walkerInit, spec.SetDefault]
  split <;> split <;> rfl

theorem walkerInit_hasDefault (d : Nat) (f : Field) :
    (walkerInit d f).hasDefault = f.hasDefaultTag := by
  simp only [walkerInit, spec.SetDefault]
  by_cases h1 : f.hasDefaultTag = true
  · rw [if_pos h1, h1]
  · rw [if_neg h1]
    have h2 : f.hasDefaultTag = false := by
      cases hf : f.hasDefaultTag
      · rfl
      · exact absurd hf h1
    rw [h2]
    split <;> rfl

theorem walkerInit_dest (d : Nat) (f : Field) : (walkerInit d f).dest = d := by
  simp only [walkerInit, spec.SetDefault]
  split <;> split <;> rfl

theorem lookAtTagAux_inv (toks : List (List Char)) (sp sp' : spec)
    (h : lookAtTagAux sp toks = .ok sp') :
    sp'.hasDefault = sp.hasDefault ∧ sp'.defaultVal = sp.defaultVal ∧
    sp'.dest = sp.dest ∧ sp'.multiple = sp.multiple ∧
    (sp'.required = true → sp.required = true ∨ sp.hasDefault = false) := by
  induction toks generalizing sp with
  | nil =>
    rw [lookAtTagAux] at h
    cases h
    exact ⟨rfl, rfl, rfl, rfl, fun hr => .inl hr⟩
  | cons tok rest ih =>
    rw [lookAtTagAux] at h
    by_cases ht : tok = []
    · rw [if_pos ht] at h
      exact ih sp h
    · rw [if_neg ht] at h
      by_cases hn : (splitFirstColon (trimLeftSpaces tok)).1 = "name".data ∧
          (splitFirstColon (trimLeftSpaces tok)).2 ≠ []
      · rw [if_pos hn] at h
        exact ih { sp with name := String.mk (splitFirstColon (trimLeftSpaces tok)).2 } h
      · rw [if_neg hn] at h
        by_cases hq : (splitFirstColon (trimLeftSpaces tok)).1 = "required".data
        · rw [if_pos hq] at h
          by_cases hd : sp.hasDefault = true
          · rw [if_pos hd] at h
            cases h
          · rw [if_neg hd] at h
            obtain ⟨h1, h2, h3, h4, _⟩ := ih _ h
            have hdf : sp.hasDefault = false := by
              cases hf : sp.hasDefault
              · rfl
              · exact absurd hf hd
            exact ⟨h1, h2, h3, h4, fun _ => .inr hdf⟩
        · rw [if_neg hq] at h
          cases h

theorem walker_ok_inv (d : Nat) (f : Field) (tname : String) (sp : spec) (b : Bool)
    (h : walker d f tname = .ok (some sp, b)) :
    sp.dest = d ∧ (sp.required = true → sp.hasDefault = false) ∧
    (sp.multiple = true → sp.hasDefault = false) := by
  rw [walker] at h
  by_cases h1 : f.envTag = "-"
  · rw [if_pos h1] at h
    cases h
  · rw [if_neg h1] at h
    by_cases h2 : f.anonymousStruct = true
    · rw [if_pos h2] at h
      cases h
    · rw [if_neg h2] at h
      cases hlt : lookAtTag f.envTag (walkerInit d f) with
      | error e =>
        rw [hlt] at h
        cases h
      | ok sp2 =>
        rw [hlt] at h
        obtain ⟨hhd, _, hdest, _, hreq⟩ :=
          lookAtTagAux_inv (splitComma f.envTag.data) (walkerInit d f) sp2 hlt
        by_cases h3 : f.parseable = false
        · have h4 : (if f.parseable = false then
              Except.error (tname ++ "." ++ f.fname ++ ": " ++ f.typeName ++ " - " ++
                ErrorFieldsAreNotSupported)
            else if ({ sp2 with boolean := f.boolean, multiple := f.multiple }).multiple &&
                ({ sp2 with boolean := f.boolean, multiple := f.multiple }).hasDefault then
              Except.error (tname ++ "." ++ f.fname ++ ": " ++ ErrorDefaultValueForSlice)
            else .ok (some { sp2 with boolean := f.boolean, multiple := f.multiple }, false)) =
              .ok (some sp, b) := h
          rw [if_pos h3] at h4
          cases h4
        · have h4 : (if f.parseable = false then
              Except.error (tname ++ "." ++ f.fname ++ ": " ++ f.typeName ++ " - " ++
                ErrorFieldsAreNotSupported)
            else if ({ sp2 with boolean := f.boolean, multiple := f.multiple }).multiple &&
                ({ sp2 with boolean := f.boolean, multiple := f.multiple }).hasDefault then
              Except.error (tname ++ "." ++ f.fname ++ ": " ++ ErrorDefaultValueForSlice)
            else .ok (some { sp2 with boolean := f.boolean, multiple := f.multiple }, false)) =
              .ok (some sp, b) := h
          rw [if_neg h3] at h4
          by_cases h5 : (f.multiple && sp2.hasDefault) = true
          · rw [if_pos h5] at h4
            cases h4
          · rw [if_neg h5] at h4
            cases h4
            refine ⟨?_, ?_, ?_⟩
            · show sp2.dest = d
              rw [hdest, walkerInit_dest]
            · intro hr
              have hr2 : sp2.required = true := hr
              have hw := hreq hr2
              rw [walkerInit_required] at hw
              rcases hw with hfalse | hok
              · cases hfalse
              · show sp2.hasDefault = false
                rw [hhd, hok]
            · intro hm
              have hm2 : f.multiple = true := hm
              show sp2.hasDefault = false
              cases hhd2 : sp2.hasDefault
              · rfl
              · exfalso
                apply h5
                rw [hm2, hhd2]
                rfl

theorem specsFromFieldsAux_inv (tname : String) (fields : List Field) (d : Nat)
    (specs : List spec)
    (h : specsFromFieldsAux tname fields d = .ok specs) :
    ∀ sp ∈ specs, (sp.required = true → sp.hasDefault = false) ∧
      (sp.multiple = true → sp.hasDefault = false) := by
  induction fields generalizing d specs with
  | nil =>
    rw [specsFromFieldsAux] at h
    cases h
    intro sp hsp
    cases hsp
  | cons f rest ih =>
    rw [specsFromFieldsAux] at h
    cases hw : walker d f tname with
    | error e =>
      rw [hw] at h
      cases h
    | ok ob =>
      obtain ⟨osp, b⟩ := ob
      rw [hw] at h
      cases osp with
      | none =>
        exact ih (d + 1) specs h
      | some sp =>
        have h2 : (specsFromFieldsAux tname rest (d + 1)).map (sp :: ·) = .ok specs := h
        cases hr : specsFromFieldsAux tname rest (d + 1) with
        | error e =>
          rw [hr] at h2
          cases h2
        | ok specs' =>
          rw [hr] at h2
          have h3 : Except.ok (ε := String) (sp :: specs') = .ok specs := h2
          cases h3
          intro sp2 hsp2
          rcases List.mem_cons.1 hsp2 with hm | hm
          · subst hm
            obtain ⟨_, hr2, hm2⟩ := walker_ok_inv d f tname sp2 b hw
            exact ⟨hr2, hm2⟩
          · exact ih (d + 1) specs' hr sp2 hm

theorem addDefault_inv (fields : List Field) (sp sp2 : spec)
    (h : addDefault fields sp = .ok sp2) :
    sp2.required = sp.required ∧ sp2.hasDefault = sp.hasDefault ∧
    sp2.multiple = sp.multiple ∧ sp2.dest = sp.dest := by
  rw [addDefault] at h
  cases hg : fields.get? sp.dest with
  | none =>
    rw [hg] at h
    cases h
    exact ⟨rfl, rfl, rfl, rfl⟩
  | some f =>
    rw [hg] at h
    have h2 : addDefaultField f sp = .ok sp2 := h
    rw [addDefaultField] at h2
    by_cases hz : f.isZeroInit = true
    · rw [if_pos hz] at h2
      cases h2
      exact ⟨rfl, rfl, rfl, rfl⟩
    · rw [if_neg hz] at h2
      by_cases hm : f.isTextMarshaler = true
      · rw [if_pos hm] at h2
        cases hmt : f.marshalText with
        | error e =>
          rw [hmt] at h2
          cases h2
        | ok str =>
          rw [hmt] at h2
          cases h2
          exact ⟨rfl, rfl, rfl, rfl⟩
      · rw [if_neg hm] at h2
        cases h2
        exact ⟨rfl, rfl, rfl, rfl⟩

theorem addDefaults_mem (fields : List Field) (specs out : List spec)
    (h : addDefaults fields specs = .ok out) :
    ∀ sp2 ∈ out, ∃ sp ∈ specs, addDefault fields sp = .ok sp2 := by
  induction specs generalizing out with
  | nil =>
    rw [addDefaults] at h
    cases h
    intro sp2 hsp2
    cases hsp2
  | cons sp rest ih =>
    rw [addDefaults] at h
    cases ha : addDefault fields sp with
    | error e =>
      rw [ha] at h
      cases h
    | ok sp2 =>
      rw [ha] at h
      have h2 : (addDefaults fields rest).map (sp2 :: ·) = .ok out := h
      cases hr : addDefaults fields rest with
      | error e =>
        rw [hr] at h2
        cases h2
      | ok out' =>
        rw [hr] at h2
        have h3 : Except.ok (ε := String) (sp2 :: out') = .ok out := h2
        cases h3
        intro sp3 hsp3
        rcases List.mem_cons.1 hsp3 with hm | hm
        · subst hm
          exact ⟨sp, List.mem_cons_self _ _, ha⟩
        · obtain ⟨sp4, hsp4, ha4⟩ := ih out' hr sp3 hm
          exact ⟨sp4, List.mem_cons_of_mem _ hsp4, ha4⟩

theorem lookAtTag_empty (sp : spec) : lookAtTag "" sp = .ok sp := rfl

/-- Field fixture: a field with an explicit default annotation `"explicit"`
and a non-zero initial value whose `fmt` rendering is `"implicit"`. -/
def fieldC2 : Field :=
  { fname := "host", envTag := "", hasHelp := false, helpTag := "",
    hasDefaultTag := true, defaultTag := "explicit", typeName := "string",
    parseable := true, boolean := false, multiple := false, anonymousStruct := false,
    isZeroInit := false, fmtRender := "implicit", isTextMarshaler := false,
    marshalText := .ok "" }

/-- Field fixture: a field tagged `required` whose initial value is non-zero
(rendered `"7"`). -/
def fieldC3 : Field :=
  { fieldC2 with
    fname := "port", envTag := "required", hasDefaultTag := false,
    defaultTag := "", typeName := "int", fmtRender := "7" }

/-- Field fixture: a slice field with a non-nil initial value (rendered
`"[42]"`) and no explicit default annotation. -/
def fieldC4 : Field :=
  { fieldC2 with
    fname := "foo", hasDefaultTag := false, defaultTag := "",
    typeName := "[]int", multiple := true, fmtRender := "[42]" }

/-- Counterexample to claim C2 as stated: with both an explicit default
annotation (`"explicit"`) and a non-zero pre-set value (rendered
`"implicit"`), the constructed slot's default literal is the rendering of
the pre-set value, not the annotation. -/
theorem claim_C2_counterexample :
    (NewParser "T" [fieldC2]).map (fun l => l.map (fun s => s.defaultVal)) =
      .ok ["implicit"] := rfl

/-- Claim C2, amended: when a destination field holds a non-zero value at
construction (and its type has no custom textual encoder), the rendering of
that value overwrites the slot's default literal unconditionally — even
when an explicit default annotation exists.  The implicit default wins, not
the explicit one. -/
theorem claim_C2_amended (tname : String) (f : Field) (specs : List spec)
    (hnz : f.isZeroInit = false) (hnm : f.isTextMarshaler = false)
    (h : NewParser tname [f] = .ok specs) :
    ∀ sp ∈ specs, sp.defaultVal = f.fmtRender := by
  rw [NewParser] at h
  cases hs : specsFromFieldsAux tname [f] 0 with
  | error e =>
    rw [hs] at h
    cases h
  | ok specs0 =>
    rw [hs] at h
    have h2 : addDefaults [f] specs0 = .ok specs := h
    rw [specsFromFieldsAux] at hs
    cases hw : walker 0 f tname with
    | error e =>
      rw [hw] at hs
      cases hs
    | ok ob =>
      obtain ⟨osp, b⟩ := ob
      rw [hw] at hs
      cases osp with
      | none =>
        have hs2 : Except.ok (ε := String) ([] : List spec) = .ok specs0 := hs
        cases hs2
        have h3 : Except.ok (ε := String) ([] : List spec) = .ok specs := h2
        cases h3
        intro sp hsp
        cases hsp
      | some sp0 =>
        have hs2 : Except.ok (ε := String) [sp0] = .ok specs0 := hs
        cases hs2
        rw [addDefaults] at h2
        cases ha : addDefault [f] sp0 with
        | error e =>
          rw [ha] at h2
          cases h2
        | ok sp1 =>
          rw [ha] at h2
          have h3 : Except.ok (ε := String) [sp1] = .ok specs := h2
          cases h3
          intro sp hsp
          rcases List.mem_singleton.1 hsp with rfl
          obtain ⟨hdest0, _, _⟩ := walker_ok_inv 0 f tname sp0 b hw
          rw [addDefault, hdest0] at ha
          have ha2 : addDefaultField f sp0 = .ok sp := ha
          rw [addDefaultField] at ha2
          rw [if_neg (by rw [hnz]; exact Bool.false_ne_true)] at ha2
          rw [if_neg (by rw [hnm]; exact Bool.false_ne_true)] at ha2
          have ha3 : Except.ok (ε := String) { sp0 with defaultVal := f.fmtRender } =
            .ok sp := ha2
          cases ha3
          rfl

/-- Witness for the amended C2: the slot built from `fieldC2` carries the
implicit rendering `"implicit"` as its default literal. -/
theorem claim_C2_amended_witness :
    ({ dest := 0, name := "host", help := "", defaultVal := "implicit", multiple := false,
       required := false, boolean := false, hasDefault := true } : spec).defaultVal =
      fieldC2.fmtRender :=
  claim_C2_amended "T" fieldC2
    [{ dest := 0, name := "host", help := "", defaultVal := "implicit", multiple := false,
       required := false, boolean := false, hasDefault := true }]
    rfl rfl rfl _ (List.mem_singleton.2 rfl)

/-- Counterexample to claim C3 as stated: a `required` field whose initial
value is non-zero constructs successfully into a slot that is both required
and carries the non-empty default literal `"7"`. -/
theorem claim_C3_counterexample :
    (NewParser "T" [fieldC3]).map (fun l => l.map (fun s => (s.required, s.defaultVal))) =
      .ok [(true, "7")] := rfl

/-- Claim C3, amended: in a successfully constructed schema, `required` is
mutually exclusive with an *explicit* default annotation (`hasDefault`) —
construction fails on that combination — but a required slot can still
carry a non-empty default literal materialized implicitly from a non-zero
pre-set destination value. -/
theorem claim_C3_amended (tname : String) (fields : List Field) (specs : List spec)
    (h : NewParser tname fields = .ok specs) :
    ∀ sp ∈ specs, sp.required = true → sp.hasDefault = false := by
  rw [NewParser] at h
  cases hs : specsFromFieldsAux tname fields 0 with
  | error e =>
    rw [hs] at h
    cases h
  | ok specs0 =>
    rw [hs] at h
    have h2 : addDefaults fields specs0 = .ok specs := h
    intro sp hsp hreq
    obtain ⟨sp0, hsp0, ha⟩ := addDefaults_mem fields specs0 specs h2 sp hsp
    obtain ⟨hr, hhd, _, _⟩ := addDefault_inv fields sp0 sp ha
    have hinv := specsFromFieldsAux_inv tname fields 0 specs0 hs sp0 hsp0
    rw [hhd]
    exact hinv.1 (by rw [← hr]; exact hreq)

/-- Witness for the amended C3: the slot built from `fieldC3` is required
and nonetheless has `hasDefault = false` (its `"7"` default is implicit). -/
theorem claim_C3_amended_witness :
    ({ dest := 0, name := "port", help := "", defaultVal := "7", multiple := false,
       required := true, boolean := false, hasDefault := false } : spec).hasDefault = false :=
  claim_C3_amended "T" [fieldC3]
    [{ dest := 0, name := "port", help := "", defaultVal := "7", multiple := false,
       required := true, boolean := false, hasDefault := false }]
    rfl _ (List.mem_singleton.2 rfl) rfl

/-- Counterexample to claim C4 as stated: a multi-value field with a non-nil
pre-set slice constructs successfully into a slot that is multi-value and
carries the non-empty (implicit) default literal `"[42]"`. -/
theorem claim_C4_counterexample :
    (NewParser "T" [fieldC4]).map (fun l => l.map (fun s => (s.multiple, s.defaultVal))) =
      .ok [(true, "[42]")] := rfl

/-- Claim C4, amended: a multi-value slot never carries an *explicit*
default annotation — a slice field with a declared default literal fails
construction with the "default values are not supported for slice fields"
error — but an implicit default literal materialized from a non-nil pre-set
slice is stored without any error. -/
theorem claim_C4_amended :
    (∀ tname fields specs, NewParser tname fields = .ok specs →
       ∀ sp ∈ specs, sp.multiple = true → sp.hasDefault = false) ∧
    (∀ tname f, f.envTag = "" → f.anonymousStruct = false → f.parseable = true →
       f.multiple = true → f.hasDefaultTag = true →
       NewParser tname [f] =
         .error (tname ++ "." ++ f.fname ++ ": " ++ ErrorDefaultValueForSlice)) := by
  constructor
  · intro tname fields specs h
    rw [NewParser] at h
    cases hs : specsFromFieldsAux tname fields 0 with
    | error e =>
      rw [hs] at h
      cases h
    | ok specs0 =>
      rw [hs] at h
      have h2 : addDefaults fields specs0 = .ok specs := h
      intro sp hsp hmul
      obtain ⟨sp0, hsp0, ha⟩ := addDefaults_mem fields specs0 specs h2 sp hsp
      obtain ⟨_, hhd, hmu, _⟩ := addDefault_inv fields sp0 sp ha
      have hinv := specsFromFieldsAux_inv tname fields 0 specs0 hs sp0 hsp0
      rw [hhd]
      exact hinv.2 (by rw [← hmu]; exact hmul)
  · intro tname f he han hp hm hdt
    have hw : walker 0 f tname =
        .error (tname ++ "." ++ f.fname ++ ": " ++ ErrorDefaultValueForSlice) := by
      rw [walker]
      rw [if_neg (show ¬(f.envTag = "-") by rw [he]; decide)]
      rw [if_neg (by rw [han]; exact Bool.false_ne_true)]
      rw [he, lookAtTag_empty]
      show (if f.parseable = false then
          Except.error (tname ++ "." ++ f.fname ++ ": " ++ f.typeName ++ " - " ++
            ErrorFieldsAreNotSupported)
        else if (f.multiple && (walkerInit 0 f).hasDefault) = true then
          Except.error (tname ++ "." ++ f.fname ++ ": " ++ ErrorDefaultValueForSlice)
        else .ok (some { walkerInit 0 f with boolean := f.boolean, multiple := f.multiple },
          false)) = _
      rw [if_neg (by rw [hp]; exact fun hc => Bool.noConfusion hc)]
      rw [if_pos (by rw [walkerInit_hasDefault, hm, hdt]; rfl)]
    rw [NewParser, specsFromFieldsAux, hw]

/-- Witness for the amended C4: an explicit default annotation on a slice
field fails construction with the slice-default error. -/
theorem claim_C4_amended_witness :
    NewParser "T" [{ fieldC4 with hasDefaultTag := true, defaultTag := "1" }] =
      .error ("T" ++ "." ++ "foo" ++ ": " ++ ErrorDefaultValueForSlice) :=
  claim_C4_amended.2 "T" { fieldC4 with hasDefaultTag := true, defaultTag := "1" }
    rfl rfl rfl rfl rfl

/-- Claim C8 (spec-modelled: the classifier `canParse` and the converter
live outside src/, which holds only their tests and callers): a type
exposing the custom textual-decode capability — directly or through a
pointer — is classified as a single opaque scalar slot regardless of its
underlying shape, even a boolean or slice shape; the boolean and
multi-value classifications apply only to types without the capability;
conversion at a custom type invokes the capability on the raw string, and
slices of custom-decodable elements are decoded element-wise through it. -/
theorem claim_C8 :
    (∀ s, canParse (GoType.custom s) = (true, false, false)) ∧
    (∀ s, canParse (GoType.ptr (GoType.custom s)) = (true, false, false)) ∧
    (∀ t, (canParse t).2.1 = true → hasCustom t = false) ∧
    (∀ t, (canParse t).2.2 = true → hasCustom t = false) ∧
    (∀ cd structural s raw,
       convert cd structural (GoType.custom s) raw = cd (GoType.custom s) raw) ∧
    (∀ cd structural s values,
       setSliceVals (fun raw => convert cd structural (GoType.custom s) raw) values =
         setSliceVals (cd (GoType.custom s)) values) := by
  refine ⟨fun s => rfl, fun s => rfl, ?_, ?_, fun cd structural s raw => rfl,
    fun cd structural s values => rfl⟩
  · intro t h
    cases t <;> simp_all [canParse, hasCustom]
  · intro t h
    cases t <;> simp_all [canParse, hasCustom]

/-- Witness for C8: a plain boolean is classified boolean and has no custom
capability; a slice of plain scalars is classified multi-value and has no
custom capability. -/
theorem claim_C8_witness :
    hasCustom GoType.boolT = false ∧ hasCustom (GoType.slice GoType.scalarT) = false :=
  ⟨claim_C8.2.2.1 GoType.boolT (by decide),
   claim_C8.2.2.2.1 (GoType.slice GoType.scalarT) (by decide)⟩

theorem strDataAppend (a b : String) : (a ++ b).data = a.data ++ b.data := by
  cases a
  cases b
  rfl

theorem strMkData (v : String) : String.mk v.data = v := by
  cases v
  rfl

theorem strDataNeNil (v : String) (h : v ≠ "") : v.data ≠ [] := by
  cases v with
  | mk l =>
    intro hl
    apply h
    simp only at hl
    rw [hl]

theorem splitComma_ne_nil (l : List Char) : splitComma l ≠ [] := by
  cases l with
  | nil => simp [splitComma]
  | cons c rest =>
    rw [splitComma]
    by_cases hc : c = ','
    · simp [hc]
    · rw [if_neg hc]
      cases h : splitComma rest with
      | nil => simp
      | cons t ts => simp

theorem splitComma_no_comma (l : List Char) (h : ',' ∉ l) : splitComma l = [l] := by
  induction l with
  | nil => rfl
  | cons c rest ih =>
    rw [splitComma]
    have hc : ¬(c = ',') := fun hc => h (hc ▸ List.mem_cons_self c rest)
    rw [if_neg hc, ih (fun hm => h (List.mem_cons_of_mem c hm))]

theorem splitComma_append (l1 l2 : List Char) (h : ',' ∉ l1) :
    splitComma (l1 ++ ',' :: l2) = l1 :: splitComma l2 := by
  induction l1 with
  | nil => simp [splitComma]
  | cons c rest ih =>
    have hc : ¬(c = ',') := fun hc => h (hc ▸ List.mem_cons_self c rest)
    rw [List.cons_append, splitComma, if_neg hc, ih (fun hm => h (List.mem_cons_of_mem c hm))]

theorem lookAtTagAux_append (sp : spec) (ts1 ts2 : List (List Char)) :
    lookAtTagAux sp (ts1 ++ ts2) =
      match lookAtTagAux sp ts1 with
      | .error e => .error e
      | .ok sp2 => lookAtTagAux sp2 ts2 := by
  induction ts1 generalizing sp with
  | nil => rfl
  | cons tok rest ih =>
    rw [List.cons_append, lookAtTagAux, lookAtTagAux]
    by_cases ht : tok = []
    · rw [if_pos ht, if_pos ht]
      exact ih sp
    · rw [if_neg ht, if_neg ht]
      by_cases hn : (splitFirstColon (trimLeftSpaces tok)).1 = "name".data ∧
          (splitFirstColon (trimLeftSpaces tok)).2 ≠ []
      · rw [if_pos hn, if_pos hn]
        exact ih _
      · rw [if_neg hn, if_neg hn]
        by_cases hq : (splitFirstColon (trimLeftSpaces tok)).1 = "required".data
        · rw [if_pos hq, if_pos hq]
          by_cases hd : sp.hasDefault = true
          · rw [if_pos hd, if_pos hd]
          · rw [if_neg hd, if_neg hd]
            exact ih _
        · rw [if_neg hq, if_neg hq]

theorem walkerInit_name (d : Nat) (f : Field) :
    (walkerInit d f).name = toLowerStr f.fname := by
  simp only [walkerInit, spec.SetDefault]
  split <;> split <;> rfl

/-- Claim C9: the option annotation is split on commas into tokens of the
form `key` or `key:value` (processed left to right); the empty annotation
changes nothing, leaving the lower-cased field name as the environment key;
a `name` token with a non-empty value overrides the key; a `required` token
marks the slot required; any other key — including `name` with an empty
value — fails with an error carrying the offending token's key. -/
theorem claim_C9 :
    (∀ sp : spec, lookAtTag "" sp = .ok sp) ∧
    (∀ (a b : String) (sp : spec), ',' ∉ a.data →
       lookAtTag (a ++ "," ++ b) sp =
         match lookAtTag a sp with
         | .error e => .error e
         | .ok sp2 => lookAtTag b sp2) ∧
    (∀ (v : String) (sp : spec), v ≠ "" → ',' ∉ v.data →
       lookAtTag ("name:" ++ v) sp = .ok { sp with name := v }) ∧
    (∀ sp : spec, sp.hasDefault = false →
       lookAtTag "required" sp = .ok { sp with required := true }) ∧
    (∀ (t : String) (sp : spec), t.data ≠ [] → ',' ∉ t.data →
       ¬((splitFirstColon (trimLeftSpaces t.data)).1 = "name".data ∧
         (splitFirstColon (trimLeftSpaces t.data)).2 ≠ []) →
       (splitFirstColon (trimLeftSpaces t.data)).1 ≠ "required".data →
       lookAtTag t sp =
         .error (String.mk (splitFirstColon (trimLeftSpaces t.data)).1 ++ "-" ++
           ErrorUnrecognizedTag)) ∧
    (∀ (d : Nat) (f : Field) (tname : String),
       f.envTag = "" → f.anonymousStruct = false → f.parseable = true → f.multiple = false →
       walker d f tname =
         .ok (some { walkerInit d f with boolean := f.boolean, multiple := f.multiple },
           false) ∧
       (walkerInit d f).name = toLowerStr f.fname) := by
  refine ⟨fun sp => rfl, ?_, ?_, ?_, ?_, ?_⟩
  · intro a b sp ha
    rw [lookAtTag]
    have hd : (a ++ "," ++ b).data = a.data ++ ',' :: b.data := by
      rw [strDataAppend, strDataAppend]
      rw [List.append_assoc]
      rfl
    rw [hd, splitComma_append a.data b.data ha]
    have h2 : a.data :: splitComma b.data = [a.data] ++ splitComma b.data := rfl
    rw [h2, lookAtTagAux_append]
    rw [lookAtTag, splitComma_no_comma a.data ha]
    rfl
  · intro v sp hv hvc
    have hdata : ("name:" ++ v).data = 'n' :: 'a' :: 'm' :: 'e' :: ':' :: v.data := by
      cases v
      rfl
    have hnc : ',' ∉ ('n' :: 'a' :: 'm' :: 'e' :: ':' :: v.data) := by
      intro hmem
      simp only [List.mem_cons] at hmem
      rcases hmem with h1 | h1 | h1 | h1 | h1 | h1
      · exact absurd h1 (by decide)
      · exact absurd h1 (by decide)
      · exact absurd h1 (by decide)
      · exact absurd h1 (by decide)
      · exact absurd h1 (by decide)
      · exact hvc h1
    rw [lookAtTag, hdata, splitComma_no_comma _ hnc, lookAtTagAux]
    have hkv1 : (splitFirstColon (trimLeftSpaces
        ('n' :: 'a' :: 'm' :: 'e' :: ':' :: v.data))).1 = "name".data := rfl
    have hkv2 : (splitFirstColon (trimLeftSpaces
        ('n' :: 'a' :: 'm' :: 'e' :: ':' :: v.data))).2 = v.data := rfl
    rw [if_neg (List.cons_ne_nil _ _)]
    rw [if_pos ⟨hkv1, by rw [hkv2]; exact strDataNeNil v hv⟩]
    rw [hkv2, strMkData, lookAtTagAux]
  · intro sp h
    rw [lookAtTag]
    rw [show splitComma "required".data = ["required".data] from rfl, lookAtTagAux]
    rw [if_neg (show ¬("required".data = []) by decide)]
    rw [if_neg (show ¬((splitFirstColon (trimLeftSpaces "required".data)).1 = "name".data ∧
      (splitFirstColon (trimLeftSpaces "required".data)).2 ≠ []) by decide)]
    rw [if_pos (show (splitFirstColon (trimLeftSpaces "required".data)).1 =
      "required".data by decide)]
    rw [if_neg (by rw [h]; exact Bool.false_ne_true), lookAtTagAux]
  · intro t sp hne hnc hn hq
    rw [lookAtTag, splitComma_no_comma t.data hnc, lookAtTagAux]
    rw [if_neg hne, if_neg hn, if_neg hq]
  · intro d f tname he han hp hm
    refine ⟨?_, walkerInit_name d f⟩
    rw [walker]
    rw [if_neg (show ¬(f.envTag = "-") by rw [he]; decide)]
    rw [if_neg (by rw [han]; exact Bool.false_ne_true)]
    rw [he]
    rw [lookAtTag_empty]
    show (if f.parseable = false then
        Except.error (tname ++ "." ++ f.fname ++ ": " ++ f.typeName ++ " - " ++
          ErrorFieldsAreNotSupported)
      else if (f.multiple && (walkerInit d f).hasDefault) = true then
        Except.error (tname ++ "." ++ f.fname ++ ": " ++ ErrorDefaultValueForSlice)
      else .ok (some { walkerInit d f with boolean := f.boolean, multiple := f.multiple },
        false)) = _
    rw [if_neg (by rw [hp]; exact fun hc => Bool.noConfusion hc)]
    rw [if_neg (by rw [hm]; exact fun hc => Bool.noConfusion hc)]

/-- Witness for C9: the unknown token `blah` is rejected with an error
naming it, and `name:WORKERS,required` both renames and requires. -/
theorem claim_C9_witness :
    lookAtTag "blah" spec0 = .error ("blah" ++ "-" ++ ErrorUnrecognizedTag) :=
  claim_C9.2.2.2.2.1 "blah" spec0 (by decide) (by decide) (by decide) (by decide)

/-- Fields of a quote-free record line: the comma split, with `acc` (the
already-scanned field prefix, reversed) prepended to the first field. -/
def splitWithAcc (acc cs : List Char) : List String :=
  match splitComma cs with
  | [] => []
  | t :: ts => String.mk (acc.reverse ++ t) :: ts.map String.mk

theorem splitWithAcc_nil (cs : List Char) :
    splitWithAcc [] cs = (splitComma cs).map String.mk := by
  cases h : splitComma cs with
  | nil => simp [splitWithAcc, h]
  | cons t ts => simp [splitWithAcc, h]

theorem splitWithAcc_comma (acc cs : List Char) :
    splitWithAcc acc (',' :: cs) = String.mk acc.reverse :: (splitComma cs).map String.mk := by
  simp [splitWithAcc, splitComma]

theorem splitWithAcc_cons (acc cs : List Char) (c : Char) (hc : ¬(c = ',')) :
    splitWithAcc acc (c :: cs) = splitWithAcc (c :: acc) cs := by
  cases h : splitComma cs with
  | nil => exact absurd h (splitComma_ne_nil cs)
  | cons t ts =>
    simp [splitWithAcc, splitComma, hc, h, List.reverse_cons, List.append_assoc]

theorem dropCR_no_cr (acc : List Char) (h : '\r' ∉ acc) : dropCR acc = acc := by
  cases acc with
  | nil => rfl
  | cons c rest =>
    rw [dropCR, if_neg (fun (hc : c = '\r') => h (hc ▸ List.mem_cons_self c rest))]

theorem csvRun_noquote : ∀ cs : List Char, '\n' ∉ cs → '"' ∉ cs → '\r' ∉ cs →
    ∀ acc fields, '\r' ∉ acc →
    csvRun cs .unquoted acc fields = .ok (fields ++ splitWithAcc acc cs) ∧
    csvRun cs .fieldStart acc fields = .ok (fields ++ splitWithAcc acc cs) := by
  intro cs
  induction cs with
  | nil =>
    intro _ _ _ acc fields hacc
    constructor
    · show Except.ok (fields ++ [String.mk (dropCR acc).reverse]) = _
      rw [dropCR_no_cr acc hacc]
      simp [splitWithAcc, splitComma]
    · show Except.ok (fields ++ [String.mk (dropCR acc).reverse]) = _
      rw [dropCR_no_cr acc hacc]
      simp [splitWithAcc, splitComma]
  | cons c cs' ih =>
    intro hnl hq hnr acc fields hacc
    have hcnl : ¬(c = '\n') := fun h => hnl (h ▸ List.mem_cons_self c cs')
    have hcq : ¬(c = '"') := fun h => hq (h ▸ List.mem_cons_self c cs')
    have hccr : ¬(c = '\r') := fun h => hnr (h ▸ List.mem_cons_self c cs')
    have hnl' : '\n' ∉ cs' := fun h => hnl (List.mem_cons_of_mem c h)
    have hq' : '"' ∉ cs' := fun h => hq (List.mem_cons_of_mem c h)
    have hnr' : '\r' ∉ cs' := fun h => hnr (List.mem_cons_of_mem c h)
    have hacc' : '\r' ∉ c :: acc := by
      intro hm
      rcases List.mem_cons.1 hm with hm | hm
      · exact hccr hm.symm
      · exact hacc hm
    by_cases hcm : c = ','
    · subst hcm
      constructor
      · rw [csvRun, if_neg hcq, if_pos rfl,
          (ih hnl' hq' hnr' [] (fields ++ [String.mk acc.reverse]) (List.not_mem_nil _)).2,
          splitWithAcc_comma, splitWithAcc_nil]
        simp [List.append_assoc]
      · rw [csvRun, if_neg hcq, if_pos rfl,
          (ih hnl' hq' hnr' [] (fields ++ [String.mk acc.reverse]) (List.not_mem_nil _)).2,
          splitWithAcc_comma, splitWithAcc_nil]
        simp [List.append_assoc]
    · constructor
      · rw [csvRun, if_neg hcq, if_neg hcm, if_neg hcnl,
          (ih hnl' hq' hnr' (c :: acc) fields hacc').1,
          splitWithAcc_cons acc cs' c hcm]
      · rw [csvRun, if_neg hcq, if_neg hcm, if_neg hcnl,
          (ih hnl' hq' hnr' (c :: acc) fields hacc').1,
          splitWithAcc_cons acc cs' c hcm]

theorem csvRun_line : ∀ cs : List Char, '\n' ∉ cs → '"' ∉ cs → ∀ rest acc fields,
    csvRun (cs ++ '\n' :: rest) .fieldStart acc fields = csvRun cs .fieldStart acc fields ∧
    csvRun (cs ++ '\n' :: rest) .unquoted acc fields = csvRun cs .unquoted acc fields := by
  intro cs
  induction cs with
  | nil =>
    intro _ _ rest acc fields
    constructor
    · rw [List.nil_append, csvRun, csvRun, if_neg (by decide), if_neg (by decide), if_pos rfl]
      all_goals intro h
      all_goals cases h
    · rw [List.nil_append, csvRun, csvRun, if_neg (by decide), if_neg (by decide), if_pos rfl]
      all_goals intro h
      all_goals cases h
  | cons c cs' ih =>
    intro hnl hq rest acc fields
    have hcnl : ¬(c = '\n') := fun h => hnl (h ▸ List.mem_cons_self c cs')
    have hcq : ¬(c = '"') := fun h => hq (h ▸ List.mem_cons_self c cs')
    have hnl' : '\n' ∉ cs' := fun h => hnl (List.mem_cons_of_mem c h)
    have hq' : '"' ∉ cs' := fun h => hq (List.mem_cons_of_mem c h)
    by_cases hcm : c = ','
    · subst hcm
      constructor
      · rw [List.cons_append, csvRun, if_neg hcq, if_pos rfl]
        rw [csvRun, if_neg hcq, if_pos rfl]
        exact (ih hnl' hq' rest [] (fields ++ [String.mk acc.reverse])).1
      · rw [List.cons_append, csvRun, if_neg hcq, if_pos rfl]
        rw [csvRun, if_neg hcq, if_pos rfl]
        exact (ih hnl' hq' rest [] (fields ++ [String.mk acc.reverse])).1
    · constructor
      · rw [List.cons_append, csvRun, if_neg hcq, if_neg hcm, if_neg hcnl]
        rw [csvRun, if_neg hcq, if_neg hcm, if_neg hcnl]
        exact (ih hnl' hq' rest (c :: acc) fields).2
      · rw [List.cons_append, csvRun, if_neg hcq, if_neg hcm, if_neg hcnl]
        rw [csvRun, if_neg hcq, if_neg hcm, if_neg hcnl]
        exact (ih hnl' hq' rest (c :: acc) fields).2

theorem csvReadOne_cons (c : Char) (l : List Char) (hc : ¬(c = '\n')) (hcr : ¬(c = '\r')) :
    csvReadOne (String.mk (c :: l)) = csvRun (c :: l) .fieldStart [] [] := by
  have hs : csvSkipBlank (String.mk (c :: l)).data = c :: l := by
    show csvSkipBlank (c :: l) = c :: l
    cases l with
    | nil => rw [csvSkipBlank, if_neg hc]
    | cons c2 rest2 => rw [csvSkipBlank, if_neg hc, if_neg (fun h => hcr h.1)]
  rw [csvReadOne, hs]
  show (if c = '\r' ∧ l = [] then Except.error "EOF"
    else csvRun (c :: l) .fieldStart [] []) = _
  rw [if_neg (fun h => hcr h.1)]

/-- Counterexample to claim C10 as stated: the environment value `"\n3,4"`
contains an unquoted newline, yet the record read — and the elements bound
into the slice — come from the content *after* the first line, because the
CSV reader skips leading empty lines before reading its one record. -/
theorem claim_C10_counterexample :
    csvReadOne "\n3,4" = .ok ["3", "4"] ∧
    process intPe intPe [("foo", "\n3,4")] [{ spec0 with multiple := true }] [Value.list []] =
      .ok [Value.list [Value.int 3, Value.int 4]] :=
  ⟨rfl, rfl⟩

/-- Claim C10, amended: the binding engine reads exactly one CSV record —
leading empty lines are skipped first, and once a non-empty line is reached
(here quote-free and CR-free), everything after that line's unquoted
newline is silently ignored: the record is exactly the comma split of that
line. -/
theorem claim_C10_amended (l1 rest : List Char)
    (hne : l1 ≠ []) (hnl : '\n' ∉ l1) (hq : '"' ∉ l1) (hnr : '\r' ∉ l1) :
    csvReadOne (String.mk (l1 ++ '\n' :: rest)) = csvReadOne (String.mk l1) ∧
    csvReadOne (String.mk l1) = .ok ((splitComma l1).map String.mk) := by
  obtain ⟨c, l1', rfl⟩ : ∃ c l1', l1 = c :: l1' := by
    cases l1 with
    | nil => exact absurd rfl hne
    | cons c l => exact ⟨c, l, rfl⟩
  have hcnl : ¬(c = '\n') := fun h => hnl (h ▸ List.mem_cons_self c l1')
  have hccr : ¬(c = '\r') := fun h => hnr (h ▸ List.mem_cons_self c l1')
  constructor
  · rw [List.cons_append, csvReadOne_cons c (l1' ++ '\n' :: rest) hcnl hccr,
      csvReadOne_cons c l1' hcnl hccr]
    have hline := (csvRun_line (c :: l1') hnl hq rest [] []).1
    rw [List.cons_append] at hline
    exact hline
  · rw [csvReadOne_cons c l1' hcnl hccr,
      (csvRun_noquote (c :: l1') hnl hq hnr [] [] (List.not_mem_nil _)).2,
      splitWithAcc_nil]
    simp

/-- Witness for the amended C10: the line `3,4` followed by a newline and
further content binds exactly as the line `3,4` alone. -/
theorem claim_C10_amended_witness :
    csvReadOne (String.mk (['3', ',', '4'] ++ '\n' :: ['9'])) =
      csvReadOne (String.mk ['3', ',', '4']) :=
  (claim_C10_amended ['3', ',', '4'] ['9'] (by decide) (by decide) (by decide) (by decide)).1

end GoEnv
